import Mathlib

/-!
Verification of the Bitwarden secret-store backend
(`clan_cli/vars/secret_modules/bitwarden.py`).

The backend shells out to the Bitwarden CLI (`bw`); we embed it shallowly:
the vault (folders and items) becomes an explicit state record, every CLI
call that reads or mutates the vault becomes a pure operation on that
state, Python `bytes` become `List Nat` (each element `< 256`), Python
`str` becomes `List Char`, and code that can raise returns `Except`.
-/

namespace ClanVars

/-- Python `str`, as a list of code points. -/
abbrev Str := List Char

/-- Python `bytes`, as a list of byte values (each `< 256`). -/
abbrev Bytes := List Nat

/-! ## Base64 (`base64.b64encode` / `base64.b64decode`) -/

/-- The standard base64 alphabet: index `i < 64` to its character. -/
def b64chr (i : Nat) : Char :=
  if i < 26 then Char.ofNat (65 + i)
  else if i < 52 then Char.ofNat (97 + (i - 26))
  else if i < 62 then Char.ofNat (48 + (i - 52))
  else if i = 62 then '+'
  else '/'

/-- Inverse of the base64 alphabet: `some` index for alphabet characters,
`none` for everything else (such characters are discarded by non-strict
`binascii.a2b_base64`). -/
def b64digit (c : Char) : Option Nat :=
  if 65 ≤ c.toNat ∧ c.toNat ≤ 90 then some (c.toNat - 65)
  else if 97 ≤ c.toNat ∧ c.toNat ≤ 122 then some (c.toNat - 97 + 26)
  else if 48 ≤ c.toNat ∧ c.toNat ≤ 57 then some (c.toNat - 48 + 52)
  else if c = '+' then some 62
  else if c = '/' then some 63
  else none

/-- `base64.b64encode`: three input bytes become four alphabet characters,
a two-byte tail is padded with one `=`, a one-byte tail with two. -/
def b64encode : Bytes → Str
  | a :: b :: c :: rest =>
      b64chr (a / 4) :: b64chr (a % 4 * 16 + b / 16) ::
      b64chr (b % 16 * 4 + c / 64) :: b64chr (c % 64) :: b64encode rest
  | [a, b] => [b64chr (a / 4), b64chr (a % 4 * 16 + b / 16), b64chr (b % 16 * 4), '=']
  | [a] => [b64chr (a / 4), b64chr (a % 4 * 16), '=', '=']
  | [] => []

/-- The accumulating loop of non-strict `binascii.a2b_base64` (which is what
`base64.b64decode` calls with `validate=False`), mirroring the C loop:
non-alphabet characters are discarded; a `=` seen while the current quad has
fewer than two data characters is skipped without touching the pad counter
(the C condition `quad_pos >= 2 && quad_pos + ++pads >= 4` short-circuits);
a `=` after two or three data characters increments the pad counter and,
once the quad is padded to four, emits the leftover bytes and ends the
parse; every valid data character resets the pad counter and every four
accumulated digits emit three bytes; a dangling quad at the end of the
input is an error (`none`, modelling a raised `binascii.Error`). State:
remaining input, position inside the current quad, accumulated bits, count
of `=` in the current pad run, output so far. -/
def a2bLoop : Str → Nat → Nat → Nat → Bytes → Option Bytes
  | [], quadPos, _, _, out => if quadPos = 0 then some out else none
  | c :: rest, quadPos, acc, pads, out =>
    if c = '=' then
      if 2 ≤ quadPos then
        if 4 ≤ quadPos + (pads + 1) then
          if quadPos = 2 then some (out ++ [acc / 16])
          else some (out ++ [acc / 1024, acc / 4 % 256])
        else a2bLoop rest quadPos acc (pads + 1) out
      else a2bLoop rest quadPos acc pads out
    else
      match b64digit c with
      | none => a2bLoop rest quadPos acc pads out
      | some d =>
          if quadPos = 3 then
            a2bLoop rest 0 0 0
              (out ++ [(acc * 64 + d) / 65536, (acc * 64 + d) / 256 % 256, (acc * 64 + d) % 256])
          else a2bLoop rest (quadPos + 1) (acc * 64 + d) 0 out

/-- `base64.b64decode` on a `str` argument (default non-strict mode): the
argument is first ASCII-encoded — any character above `\x7f` raises
`ValueError` — and then handed to `binascii.a2b_base64`. `none` models a
raised `ValueError`/`binascii.Error`. -/
def b64decode (s : Str) : Option Bytes :=
  if s.any (fun c => 128 ≤ c.toNat) then none
  else a2bLoop s 0 0 0 []

/-! ## UTF-8 (`str.encode("utf-8")`) -/

/-- UTF-8 encoding of a single code point. -/
def utf8Char (c : Char) : Bytes :=
  if c.toNat < 128 then [c.toNat]
  else if c.toNat < 2048 then [192 + c.toNat / 64, 128 + c.toNat % 64]
  else if c.toNat < 65536 then
    [224 + c.toNat / 4096, 128 + c.toNat / 64 % 64, 128 + c.toNat % 64]
  else
    [240 + c.toNat / 262144, 128 + c.toNat / 4096 % 64,
     128 + c.toNat / 64 % 64, 128 + c.toNat % 64]

/-- `text.encode("utf-8")`. -/
def utf8Encode (s : Str) : Bytes := s.flatMap utf8Char

/-! ## Data model

`Generator` and `Var` come from the external generator subsystem (read-only
here); `BwFolder`/`BwItem` mirror the JSON objects the `bw` CLI returns for
`list folders` / `list items`; `Vault` is the vault state the CLI calls
read and mutate, with `nextId` supplying fresh ids for created objects. -/

/-- One file of a generator (`clan_cli.vars.generator.Var` file metadata). -/
structure VarFile where
  name : Str
  secret : Bool
  deploy : Bool
  mode : Nat
  owner : Str
  group : Str
  neededFor : Str
  value : Bytes
deriving DecidableEq

/-- A vars generator. `machine` is the single owning machine of a non-shared
generator. Modelled from the spec: `StoreBase.get_machine` (not in this
module) resolves a non-shared generator's one owning machine identifier. -/
structure Generator where
  name : Str
  share : Bool
  machine : Str
  files : List VarFile
deriving DecidableEq

/-- A var; only its `name` is used by this backend. -/
structure Var where
  name : Str
deriving DecidableEq

/-- A custom field of a Bitwarden item (`{"name": .., "value": .., "type": ..}`). -/
structure BwField where
  fname : Str
  fvalue : Str
  ftype : Nat
deriving DecidableEq

/-- A Bitwarden item as listed by `bw list items`. -/
structure BwItem where
  id : Nat
  itype : Nat
  name : Str
  folderId : Option Nat
  notes : Str
  fields : List BwField
deriving DecidableEq

/-- A Bitwarden folder as listed by `bw list folders`. -/
structure BwFolder where
  id : Nat
  name : Str
deriving DecidableEq

/-- The vault state behind the `bw` CLI. -/
structure Vault where
  folders : List BwFolder
  items : List BwItem
  nextId : Nat
deriving DecidableEq

/-! ## Addressing (`self.entry_prefix`, `SecretStore._folder_path`) -/

/-- `self.entry_prefix = "clan-vars"`. -/
def entryRoot : Str := ['c', 'l', 'a', 'n', '-', 'v', 'a', 'r', 's']

/-- The literal `"/shared/"`. -/
def sharedSeg : Str := ['/', 's', 'h', 'a', 'r', 'e', 'd', '/']

/-- The literal `"/per-machine/"`. -/
def perMachineSeg : Str := ['/', 'p', 'e', 'r', '-', 'm', 'a', 'c', 'h', 'i', 'n', 'e', '/']

/-- `f"{self.entry_prefix}/per-machine/{machine}/"`: the folder prefix of one
machine, as built by `delete_store` and (with the generator name appended)
by `_folder_path`. -/
def perMachineRoot (machine : Str) : Str := entryRoot ++ perMachineSeg ++ machine ++ ['/']

/-- `SecretStore._folder_path`. -/
def folderPath (g : Generator) : Str :=
  if g.share then entryRoot ++ sharedSeg ++ g.name
  else perMachineRoot g.machine ++ g.name

/-! ## Vault lookups and mutation (`bw` CLI calls as state operations) -/

/-- The folder-by-name lookup both `_get_or_create_folder` and `_get_item`
perform over `bw list folders`: first folder whose name equals `path`. -/
def findFolderId (folders : List BwFolder) (path : Str) : Option Nat :=
  (folders.find? (fun f => f.name == path)).map (·.id)

/-- `SecretStore._get_or_create_folder`: reuse the folder named `path` if one
exists, otherwise create it (fresh id) and return the new state and id. -/
def getOrCreateFolder (v : Vault) (path : Str) : Vault × Nat :=
  match findFolderId v.folders path with
  | some fid => (v, fid)
  | none =>
      ({ folders := v.folders ++ [⟨v.nextId, path⟩], items := v.items,
         nextId := v.nextId + 1 }, v.nextId)

/-- `SecretStore._get_item`: resolve the generator's folder, then return the
first item with the requested name inside that folder (the CLI `--search`
pre-filter only narrows the candidate list; the exact name/folder filter
shown here decides). `none` if the folder or the item is missing. -/
def getItem (v : Vault) (g : Generator) (name : Str) : Option BwItem :=
  match findFolderId v.folders (folderPath g) with
  | none => none
  | some fid => v.items.find? (fun it => it.name == name && it.folderId == some fid)

/-- The custom-field list `_set` attaches:
`[{"name": "encoding", "value": "base64", "type": 0}]`. -/
def b64Fields : List BwField :=
  [⟨['e', 'n', 'c', 'o', 'd', 'i', 'n', 'g'], ['b', 'a', 's', 'e', '6', '4'], 0⟩]

/-- The marker test in `get`:
`any(f.get("name") == "encoding" and f.get("value") == "base64" for f in fields)`. -/
def isBase64Marked (fs : List BwField) : Bool :=
  fs.any (fun f =>
    f.fname == ['e', 'n', 'c', 'o', 'd', 'i', 'n', 'g'] &&
    f.fvalue == ['b', 'a', 's', 'e', '6', '4'])

/-- `SecretStore._set`: ensure the folder exists, then either edit the
existing item in place (same id, new base64 notes and marker field) or
create a new secure note (type 2) with a fresh id. The `machine` argument
is unused by the source (`noqa: ARG002`). -/
def setVar (v : Vault) (g : Generator) (var : Var) (value : Bytes) (machine : Str) : Vault :=
  let path := folderPath g
  let step := getOrCreateFolder v path
  let v1 := step.1
  let fid := step.2
  match getItem v1 g var.name with
  | some existing =>
      { v1 with
        items := v1.items.map (fun it =>
          if it.id = existing.id then
            { existing with notes := b64encode value, fields := b64Fields }
          else it) }
  | none =>
      { v1 with
        items := v1.items ++
          [⟨v1.nextId, 2, var.name, some fid, b64encode value, b64Fields⟩],
        nextId := v1.nextId + 1 }

/-- Errors `get` can raise: `ClanError` for a missing secret, and
`binascii.Error` escaping from `base64.b64decode`. -/
inductive GetErr
  | secretNotFound
  | decodeFailed
deriving DecidableEq

/-- `SecretStore.get`: look the item up, then base64-decode its notes when
the `encoding=base64` marker field is present, else return the notes text
as raw UTF-8 bytes. -/
def getVar (v : Vault) (g : Generator) (name : Str) : Except GetErr Bytes :=
  match getItem v g name with
  | none => Except.error GetErr.secretNotFound
  | some item =>
      if isBase64Marked item.fields then
        match b64decode item.notes with
        | some bs => Except.ok bs
        | none => Except.error GetErr.decodeFailed
      else Except.ok (utf8Encode item.notes)

/-- `SecretStore.delete`: best-effort removal. Returns the new vault state
and the (always empty) list of paths the method returns. -/
def deleteVar (v : Vault) (g : Generator) (name : Str) : Vault × List Str :=
  match getItem v g name with
  | some item => ({ v with items := v.items.filter (fun it => it.id != item.id) }, [])
  | none => (v, [])

/-- `SecretStore.delete_store`: collect the ids of all folders whose name
starts with the machine's per-machine prefix, delete every item in those
folders, then delete the folders themselves. -/
def deleteStore (v : Vault) (machine : Str) : Vault :=
  let ids := ((v.folders.filter (fun f => (perMachineRoot machine).isPrefixOf f.name)).map (·.id))
  { v with
    items := v.items.filter (fun it =>
      match it.folderId with
      | some fid => !(ids.contains fid)
      | none => true),
    folders := v.folders.filter (fun f => !(ids.contains f.id)) }

/-! ## Manifest tracking (`generate_hash`, `needs_upload`) -/

/-- The list comprehension inside `generate_hash`:
`f"{generator.name}/{file.name}".encode()` for every secret file of every
generator of the machine. -/
def manifest (gens : List Generator) : List Bytes :=
  gens.flatMap (fun g =>
    (g.files.filter (fun f => f.secret)).map
      (fun f => utf8Encode (g.name ++ ['/'] ++ f.name)))

/-- `SecretStore.generate_hash`: `b"\n".join(sorted(manifest))`. Python's
`sorted` on `bytes` is the lexicographic order on byte sequences, which is
exactly `(· ≤ ·)` on `List Nat`; for that total (antisymmetric) order the
sorted sequence is unique, so any correct sort models it. The `bw sync`
call the source makes here only touches the CLI cache (`check=False`) and
has no effect on the returned value. -/
def generateHash (gens : List Generator) : Bytes :=
  List.intercalate [10] (List.insertionSort (· ≤ ·) (manifest gens))

/-- The ASCII characters Python's `str.strip()` removes (the claims only
exercise these; the full Unicode whitespace set strips a superset). -/
def isSpaceChar (c : Char) : Bool :=
  c == ' ' || c == Char.ofNat 9 || c == Char.ofNat 10 ||
  c == Char.ofNat 11 || c == Char.ofNat 12 || c == Char.ofNat 13

/-- Python `str.strip()`: drop whitespace from both ends. -/
def pstrip (s : Str) : Str :=
  ((s.dropWhile isSpaceChar).reverse.dropWhile isSpaceChar).reverse

/-- `SecretStore.needs_upload`. `remoteOut` is the stdout text of
`cat <secretLocation>/.bw_info` on the host (empty when the marker file is
missing or unreadable, since the command runs with `check=False` and a
failed `cat` produces no stdout). The source strips it and compares its
UTF-8 bytes against the freshly generated local manifest. -/
def needsUpload (gens : List Generator) (remoteOut : Str) : Bool :=
  let localHash := generateHash gens
  if localHash = [] then true
  else
    let remoteHash := pstrip remoteOut
    if remoteHash = [] then true
    else localHash != utf8Encode remoteHash

/-! ## Deployment staging (`populate_dir`) -/

/-- One member of a tar archive, with the `tarfile.TarInfo` attributes the
source sets (`uname`/`gname` default to the empty string, directories have
no content). -/
structure TarEntry where
  ename : Str
  isDir : Bool
  mode : Nat
  size : Nat
  uname : Str
  gname : Str
  content : Bytes
deriving DecidableEq

/-- The explicit directory entry the services phase adds per generator:
`TarInfo(name=generator.name)` with `type=DIRTYPE` and `mode=0o511`. -/
def mkDirEntry (g : Generator) : TarEntry :=
  { ename := g.name, isDir := true, mode := 0o511, size := 0,
    uname := [], gname := [], content := [] }

/-- A file entry of the services archive:
`TarInfo(name=f"{generator.name}/{file.name}")` with the file's mode and
explicit `uname`/`gname` from the file metadata. -/
def mkServiceFileEntry (g : Generator) (f : VarFile) (content : Bytes) : TarEntry :=
  { ename := g.name ++ ['/'] ++ f.name, isDir := false, mode := f.mode,
    size := content.length, uname := f.owner, gname := f.group, content := content }

/-- A file entry of the users archive: like a service file entry but with
default (empty) ownership, as `populate_dir` sets no `uname`/`gname` there. -/
def mkUserFileEntry (g : Generator) (f : VarFile) (content : Bytes) : TarEntry :=
  { ename := g.name ++ ['/'] ++ f.name, isDir := false, mode := f.mode,
    size := content.length, uname := [], gname := [], content := content }

/-- The per-generator loop of the services phase, with the `dir_exists`
flag: non-deployed and non-secret files are skipped; the first selected
file is preceded by the generator's directory entry when the flag is still
false; each selected file's content is fetched with `self.get`, whose
`ClanError` propagates. -/
def servicesLoop (v : Vault) (g : Generator) :
    List VarFile → Bool → Except GetErr (List TarEntry)
  | [], _ => Except.ok []
  | f :: rest, dirExists =>
    if f.deploy = false then servicesLoop v g rest dirExists
    else if f.secret = false then servicesLoop v g rest dirExists
    else
      match getVar v g f.name with
      | Except.error e => Except.error e
      | Except.ok content =>
          match servicesLoop v g rest true with
          | Except.error e => Except.error e
          | Except.ok tail =>
              if dirExists then Except.ok (mkServiceFileEntry g f content :: tail)
              else Except.ok (mkDirEntry g :: mkServiceFileEntry g f content :: tail)

/-- The services-phase archive (`secrets.tar.gz`) of `populate_dir`:
the per-generator loops concatenated over all generators of the machine. -/
def servicesTar (v : Vault) : List Generator → Except GetErr (List TarEntry)
  | [] => Except.ok []
  | g :: rest =>
      match servicesLoop v g g.files false with
      | Except.error e => Except.error e
      | Except.ok es =>
          match servicesTar v rest with
          | Except.error e => Except.error e
          | Except.ok tail => Except.ok (es ++ tail)

/-- The per-generator loop of the users phase: same file selection, no
directory entries, default ownership. -/
def usersLoop (v : Vault) (g : Generator) :
    List VarFile → Except GetErr (List TarEntry)
  | [] => Except.ok []
  | f :: rest =>
    if f.deploy = false then usersLoop v g rest
    else if f.secret = false then usersLoop v g rest
    else
      match getVar v g f.name with
      | Except.error e => Except.error e
      | Except.ok content =>
          match usersLoop v g rest with
          | Except.error e => Except.error e
          | Except.ok tail => Except.ok (mkUserFileEntry g f content :: tail)

/-- The users-phase archive (`secrets_for_users.tar.gz`) of `populate_dir`. -/
def usersTar (v : Vault) : List Generator → Except GetErr (List TarEntry)
  | [] => Except.ok []
  | g :: rest =>
      match usersLoop v g g.files with
      | Except.error e => Except.error e
      | Except.ok es =>
          match usersTar v rest with
          | Except.error e => Except.error e
          | Except.ok tail => Except.ok (es ++ tail)

/-- The plain files the activation/partitioning phases write under
`<output_dir>/<phase>/<generator>/<file>`: files whose `needed_for` equals
the phase, with their already-resolved plaintext `value`. -/
def phaseFiles (gens : List Generator) (phase : Str) : List (Str × Bytes) :=
  gens.flatMap (fun g =>
    (g.files.filter (fun f => f.neededFor == phase)).map
      (fun f => (g.name ++ ['/'] ++ f.name, f.value)))

/-- The phase name literals of `populate_dir` / `upload`. -/
def phaseUsers : Str := ['u', 's', 'e', 'r', 's']

/-- The literal `"services"`. -/
def phaseServices : Str := ['s', 'e', 'r', 'v', 'i', 'c', 'e', 's']

/-- The literal `"activation"`. -/
def phaseActivation : Str := ['a', 'c', 't', 'i', 'v', 'a', 't', 'i', 'o', 'n']

/-- The literal `"partitioning"`. -/
def phasePartitioning : Str := ['p', 'a', 'r', 't', 'i', 't', 'i', 'o', 'n', 'i', 'n', 'g']

/-- The directory `populate_dir` produces: the two optional archives, the
plain per-phase files, and the `.bw_info` marker (written only when the
manifest is non-empty). -/
structure StagedDir where
  users : Option (List TarEntry)
  services : Option (List TarEntry)
  activation : List (Str × Bytes)
  partitioning : List (Str × Bytes)
  bwInfo : Option Bytes
deriving DecidableEq

/-- `SecretStore.populate_dir` for a machine's generators and a phase list;
a `ClanError` raised by `self.get` while packing an archive propagates. -/
def populateDir (v : Vault) (gens : List Generator) (phases : List Str) :
    Except GetErr StagedDir :=
  match (if phaseUsers ∈ phases then Except.map some (usersTar v gens)
         else Except.ok none) with
  | Except.error e => Except.error e
  | Except.ok uT =>
      match (if phaseServices ∈ phases then Except.map some (servicesTar v gens)
             else Except.ok none) with
      | Except.error e => Except.error e
      | Except.ok sT =>
          Except.ok
            { users := uT, services := sT,
              activation :=
                if phaseActivation ∈ phases then phaseFiles gens phaseActivation else [],
              partitioning :=
                if phasePartitioning ∈ phases then phaseFiles gens phasePartitioning else [],
              bwInfo :=
                if generateHash gens = [] then none else some (generateHash gens) }

/-! ## Upload orchestration (`upload`) -/

/-- Errors `upload` can raise: the `NotImplementedError` for the
partitioning phase, or an error escaping the staging step. -/
inductive UploadErr
  | unsupportedPhase
  | stagingFailed (e : GetErr)
deriving DecidableEq

/-- `SecretStore.upload`: reject the partitioning phase before anything
else; short-circuit (`none`, "Secrets already uploaded") when no upload is
needed; otherwise stage into a temporary directory and hand the staged
directory (`some d`) to the transport. -/
def uploadRun (v : Vault) (gens : List Generator) (remoteOut : Str)
    (phases : List Str) : Except UploadErr (Option StagedDir) :=
  if phasePartitioning ∈ phases then Except.error UploadErr.unsupportedPhase
  else if needsUpload gens remoteOut then
    match populateDir v gens phases with
    | Except.error e => Except.error (UploadErr.stagingFailed e)
    | Except.ok d => Except.ok (some d)
  else Except.ok none

/-- Vault well-formedness: every item's folder reference is below the fresh-id
counter, so a newly created folder is referenced by no existing item. The
`bw` CLI maintains this (it never hands out an id twice). -/
def FolderIdsBound (v : Vault) : Prop :=
  ∀ it ∈ v.items, ∀ fid, it.folderId = some fid → fid < v.nextId

/-- One generator-list enumeration permuted into another: same generators
(by name) with each generator's file list reordered. -/
def GenPerm (g g' : Generator) : Prop :=
  g.name = g'.name ∧ g.files.Perm g'.files

/-- The bytes `self.get` returns for a file (used to state what `populate_dir`
packs; only applied where `get` is known to succeed). -/
def contentAt (v : Vault) (g : Generator) (f : VarFile) : Bytes :=
  match getVar v g f.name with
  | Except.ok bs => bs
  | Except.error _ => []

/-- The folder path an item lives under: the name of the folder its
`folderId` references (`none` for folderless or dangling items). -/
def itemFolderName (v : Vault) (it : BwItem) : Option Str :=
  it.folderId.bind (fun fid => (v.folders.find? (fun f => f.id == fid)).map (·.name))

/-! ## Lemmas: base64 round trip -/

theorem b64digit_b64chr : ∀ i < 64, b64digit (b64chr i) = some i := by decide

theorem b64chr_ne_pad : ∀ i < 64, b64chr i ≠ '=' := by decide

theorem a2bLoop_digit_ne3 (c : Char) (d : Nat) (hd : b64digit c = some d)
    (hne : c ≠ '=') (rest : Str) (qp acc pads : Nat) (out : Bytes) (hqp : qp ≠ 3) :
    a2bLoop (c :: rest) qp acc pads out = a2bLoop rest (qp + 1) (acc * 64 + d) 0 out := by
  simp only [a2bLoop]
  rw [if_neg hne, hd]
  simp only [if_neg hqp]

theorem a2bLoop_digit_eq3 (c : Char) (d : Nat) (hd : b64digit c = some d)
    (hne : c ≠ '=') (rest : Str) (acc pads : Nat) (out : Bytes) :
    a2bLoop (c :: rest) 3 acc pads out =
      a2bLoop rest 0 0 0
        (out ++ [(acc * 64 + d) / 65536, (acc * 64 + d) / 256 % 256, (acc * 64 + d) % 256]) := by
  simp only [a2bLoop]
  rw [if_neg hne, hd]
  simp

theorem a2bLoop_quad (a b c : Nat) (ha : a < 256) (hb : b < 256) (hc : c < 256)
    (rest : Str) (pads : Nat) (out : Bytes) :
    a2bLoop (b64chr (a / 4) :: b64chr (a % 4 * 16 + b / 16) ::
             b64chr (b % 16 * 4 + c / 64) :: b64chr (c % 64) :: rest) 0 0 pads out =
      a2bLoop rest 0 0 0 (out ++ [a, b, c]) := by
  have h1 : a / 4 < 64 := by omega
  have h2 : a % 4 * 16 + b / 16 < 64 := by omega
  have h3 : b % 16 * 4 + c / 64 < 64 := by omega
  have h4 : c % 64 < 64 := by omega
  rw [a2bLoop_digit_ne3 _ _ (b64digit_b64chr _ h1) (b64chr_ne_pad _ h1) _ _ _ _ _ (by omega)]
  rw [a2bLoop_digit_ne3 _ _ (b64digit_b64chr _ h2) (b64chr_ne_pad _ h2) _ _ _ _ _ (by omega)]
  rw [a2bLoop_digit_ne3 _ _ (b64digit_b64chr _ h3) (b64chr_ne_pad _ h3) _ _ _ _ _ (by omega)]
  rw [a2bLoop_digit_eq3 _ _ (b64digit_b64chr _ h4) (b64chr_ne_pad _ h4)]
  congr 1
  congr 1
  simp only [List.cons.injEq, and_true]
  omega

theorem a2bLoop_tail1 (a : Nat) (ha : a < 256) (out : Bytes) :
    a2bLoop [b64chr (a / 4), b64chr (a % 4 * 16), '=', '='] 0 0 0 out = some (out ++ [a]) := by
  have h1 : a / 4 < 64 := by omega
  have h2 : a % 4 * 16 < 64 := by omega
  rw [a2bLoop_digit_ne3 _ _ (b64digit_b64chr _ h1) (b64chr_ne_pad _ h1) _ _ _ _ _ (by omega)]
  rw [a2bLoop_digit_ne3 _ _ (b64digit_b64chr _ h2) (b64chr_ne_pad _ h2) _ _ _ _ _ (by omega)]
  simp only [a2bLoop]
  norm_num
  omega

theorem a2bLoop_tail2 (a b : Nat) (ha : a < 256) (hb : b < 256) (out : Bytes) :
    a2bLoop [b64chr (a / 4), b64chr (a % 4 * 16 + b / 16), b64chr (b % 16 * 4), '='] 0 0 0 out =
      some (out ++ [a, b]) := by
  have h1 : a / 4 < 64 := by omega
  have h2 : a % 4 * 16 + b / 16 < 64 := by omega
  have h3 : b % 16 * 4 < 64 := by omega
  rw [a2bLoop_digit_ne3 _ _ (b64digit_b64chr _ h1) (b64chr_ne_pad _ h1) _ _ _ _ _ (by omega)]
  rw [a2bLoop_digit_ne3 _ _ (b64digit_b64chr _ h2) (b64chr_ne_pad _ h2) _ _ _ _ _ (by omega)]
  rw [a2bLoop_digit_ne3 _ _ (b64digit_b64chr _ h3) (b64chr_ne_pad _ h3) _ _ _ _ _ (by omega)]
  simp only [a2bLoop]
  norm_num
  constructor
  · omega
  · omega

theorem a2bLoop_encode (bs : Bytes) (h : ∀ x ∈ bs, x < 256) :
    ∀ out : Bytes, a2bLoop (b64encode bs) 0 0 0 out = some (out ++ bs) := by
  induction bs using b64encode.induct with
  | case1 a b c rest ih =>
      intro out
      have ha : a < 256 := h a (by simp)
      have hb : b < 256 := h b (by simp)
      have hc : c < 256 := h c (by simp)
      have hrest : ∀ x ∈ rest, x < 256 := fun x hx => h x (by simp [hx])
      simp only [b64encode]
      rw [a2bLoop_quad a b c ha hb hc _ _ out, ih hrest (out ++ [a, b, c])]
      simp
  | case2 a b =>
      intro out
      simp only [b64encode]
      exact a2bLoop_tail2 a b (h a (by simp)) (h b (by simp)) out
  | case3 a =>
      intro out
      simp only [b64encode]
      exact a2bLoop_tail1 a (h a (by simp)) out
  | case4 =>
      intro out
      simp [b64encode, a2bLoop]

theorem b64chr_lt_128 : ∀ i < 64, (b64chr i).toNat < 128 := by decide

/-- `base64.b64encode` emits only ASCII characters, so decoding its output
passes the ASCII precheck. -/
theorem b64encode_ascii (bs : Bytes) (h : ∀ x ∈ bs, x < 256) :
    ∀ ch ∈ b64encode bs, ch.toNat < 128 := by
  induction bs using b64encode.induct with
  | case1 a b c rest ih =>
      intro ch hch
      have ha : a < 256 := h a (by simp)
      have hb : b < 256 := h b (by simp)
      have hc : c < 256 := h c (by simp)
      have hrest : ∀ x ∈ rest, x < 256 := fun x hx => h x (by simp [hx])
      simp only [b64encode, List.mem_cons] at hch
      rcases hch with rfl | rfl | rfl | rfl | hch
      · exact b64chr_lt_128 _ (by omega)
      · exact b64chr_lt_128 _ (by omega)
      · exact b64chr_lt_128 _ (by omega)
      · exact b64chr_lt_128 _ (by omega)
      · exact ih hrest ch hch
  | case2 a b =>
      intro ch hch
      have ha : a < 256 := h a (by simp)
      have hb : b < 256 := h b (by simp)
      simp only [b64encode, List.mem_cons] at hch
      rcases hch with rfl | rfl | rfl | rfl | hch
      · exact b64chr_lt_128 _ (by omega)
      · exact b64chr_lt_128 _ (by omega)
      · exact b64chr_lt_128 _ (by omega)
      · decide
      · simp at hch
  | case3 a =>
      intro ch hch
      have ha : a < 256 := h a (by simp)
      simp only [b64encode, List.mem_cons] at hch
      rcases hch with rfl | rfl | rfl | rfl | hch
      · exact b64chr_lt_128 _ (by omega)
      · exact b64chr_lt_128 _ (by omega)
      · decide
      · decide
      · simp at hch
  | case4 =>
      intro ch hch
      simp [b64encode] at hch

/-- `base64.b64decode(base64.b64encode(value))` recovers any byte string. -/
theorem b64decode_b64encode (bs : Bytes) (h : ∀ x ∈ bs, x < 256) :
    b64decode (b64encode bs) = some bs := by
  have hascii : (b64encode bs).any (fun c => 128 ≤ c.toNat) = false := by
    rw [List.any_eq_false]
    intro c hc
    simpa using Nat.not_le.mpr (b64encode_ascii bs h c hc)
  rw [b64decode, if_neg (by simp [hascii])]
  simpa using a2bLoop_encode bs h []

/-! ## Lemmas: `_set` followed by `get` -/

theorem isBase64Marked_b64Fields : isBase64Marked b64Fields = true := by decide

/-- Editing the found item in place (`bw edit item <id>`): afterwards the
same search finds the replacement, provided it still satisfies the search
predicate. -/
theorem find?_edit {p : BwItem → Bool} {items : List BwItem} {a : BwItem} (b : BwItem)
    (ha : items.find? p = some a) (hpb : p b = true) :
    (items.map (fun it => if it.id = a.id then b else it)).find? p = some b := by
  induction items with
  | nil => simp at ha
  | cons x xs ih =>
      by_cases hpx : p x
      · rw [List.find?_cons_of_pos _ hpx] at ha
        injection ha with ha'
        subst ha'
        simp only [List.map_cons, if_pos rfl]
        exact List.find?_cons_of_pos _ hpb
      · rw [List.find?_cons_of_neg _ hpx] at ha
        simp only [List.map_cons]
        by_cases hid : x.id = a.id
        · rw [if_pos hid]
          exact List.find?_cons_of_pos _ hpb
        · rw [if_neg hid, List.find?_cons_of_neg _ hpx]
          exact ih ha

/-- After `_set`, `_get_item` finds an item carrying the freshly written
base64 notes and the `encoding=base64` marker fields — whether the folder
existed, the item existed, or both had to be created. -/
theorem getItem_setVar (v : Vault) (g : Generator) (var : Var) (value : Bytes)
    (machine : Str) (hB : FolderIdsBound v) :
    ∃ item, getItem (setVar v g var value machine) g var.name = some item ∧
      item.notes = b64encode value ∧ item.fields = b64Fields := by
  cases hfind : v.folders.find? (fun f => f.name == folderPath g) with
  | some fld =>
      have hf : findFolderId v.folders (folderPath g) = some fld.id := by
        simp [findFolderId, hfind]
      have hstep : getOrCreateFolder v (folderPath g) = (v, fld.id) := by
        simp [getOrCreateFolder, hf]
      cases hi : getItem v g var.name with
      | some existing =>
          have hfound : v.items.find?
              (fun it => it.name == var.name && it.folderId == some fld.id) = some existing := by
            have h' := hi
            simpa only [getItem, hf] using h'
          have hpred := List.find?_some hfound
          refine ⟨{ existing with notes := b64encode value, fields := b64Fields }, ?_, rfl, rfl⟩
          simp only [setVar, hstep, hi]
          simp only [getItem, findFolderId, hfind, Option.map_some']
          exact find?_edit _ hfound (by simpa using hpred)
      | none =>
          have hnone : v.items.find?
              (fun it => it.name == var.name && it.folderId == some fld.id) = none := by
            have h' := hi
            simpa only [getItem, hf] using h'
          refine ⟨⟨v.nextId, 2, var.name, some fld.id, b64encode value, b64Fields⟩, ?_, rfl, rfl⟩
          simp only [setVar, hstep, hi]
          simp only [getItem, findFolderId, hfind, Option.map_some']
          rw [List.find?_append, hnone]
          simp
  | none =>
      have hf : findFolderId v.folders (folderPath g) = none := by
        simp [findFolderId, hfind]
      have hstep : getOrCreateFolder v (folderPath g) =
          (⟨v.folders ++ [⟨v.nextId, folderPath g⟩], v.items, v.nextId + 1⟩, v.nextId) := by
        simp [getOrCreateFolder, hf]
      have hfolders : (v.folders ++ [(⟨v.nextId, folderPath g⟩ : BwFolder)]).find?
          (fun f => f.name == folderPath g) = some ⟨v.nextId, folderPath g⟩ := by
        rw [List.find?_append, hfind]
        simp
      have hitems : ∀ it ∈ v.items,
          (it.name == var.name && it.folderId == some v.nextId) = false := by
        intro it hit
        cases hfid : it.folderId with
        | none => simp [hfid]
        | some fid =>
            have : fid < v.nextId := hB it hit fid hfid
            simp [hfid]
            omega
      have hnone : v.items.find?
          (fun it => it.name == var.name && it.folderId == some v.nextId) = none := by
        rw [List.find?_eq_none]
        intro x hx
        simp only [hitems x hx]
        exact Bool.false_ne_true
      have hi : getItem ⟨v.folders ++ [⟨v.nextId, folderPath g⟩], v.items, v.nextId + 1⟩
          g var.name = none := by
        simp only [getItem, findFolderId, hfolders, Option.map_some']
        exact hnone
      refine ⟨⟨v.nextId + 1, 2, var.name, some v.nextId, b64encode value, b64Fields⟩, ?_, rfl, rfl⟩
      simp only [setVar, hstep, hi]
      simp only [getItem, findFolderId, hfolders, Option.map_some']
      rw [List.find?_append, hnone]
      simp

/-- `_set` followed by `get` at the same address returns the stored bytes:
the written item carries the base64 marker, so `get` base64-decodes the
stored notes, and decoding inverts encoding. -/
theorem setVar_getVar_roundtrip (v : Vault) (g : Generator) (var : Var) (value : Bytes)
    (machine : Str) (hB : FolderIdsBound v) (hval : ∀ x ∈ value, x < 256) :
    getVar (setVar v g var value machine) g var.name = Except.ok value := by
  obtain ⟨item, hitem, hnotes, hfields⟩ := getItem_setVar v g var value machine hB
  simp only [getVar, hitem, hfields, isBase64Marked_b64Fields, if_true, hnotes,
    b64decode_b64encode value hval]

/-! ## Lemmas: `generate_hash` -/

theorem manifest_eq_nil (gens : List Generator)
    (h : ∀ g ∈ gens, ∀ f ∈ g.files, f.secret = false) : manifest gens = [] := by
  rw [manifest, List.flatMap_eq_nil_iff]
  intro g hg
  rw [List.map_eq_nil_iff, List.filter_eq_nil_iff]
  intro f hf
  simp [h g hg f hf]

theorem manifest_perm (gens mid gens' : List Generator)
    (h1 : gens.Perm mid) (h2 : List.Forall₂ GenPerm mid gens') :
    (manifest gens).Perm (manifest gens') := by
  have step1 : (manifest gens).Perm (manifest mid) := List.Perm.flatMap_right _ h1
  refine step1.trans ?_
  clear step1 h1
  induction h2 with
  | nil => exact List.Perm.refl _
  | cons hg htail ih =>
      obtain ⟨hname, hfiles⟩ := hg
      simp only [manifest, List.flatMap_cons]
      refine List.Perm.append ?_ ih
      rw [hname]
      exact (hfiles.filter _).map _

theorem generateHash_sorted_join (gens : List Generator) :
    ∃ l, generateHash gens = List.intercalate [10] l ∧
      l.Perm (manifest gens) ∧ List.Sorted (· ≤ ·) l :=
  ⟨List.insertionSort (· ≤ ·) (manifest gens), rfl,
    List.perm_insertionSort _ _, List.sorted_insertionSort _ _⟩

theorem generateHash_eq_nil (gens : List Generator)
    (h : ∀ g ∈ gens, ∀ f ∈ g.files, f.secret = false) : generateHash gens = [] := by
  rw [generateHash, manifest_eq_nil gens h]
  rfl

theorem generateHash_perm_invariant (gens mid gens' : List Generator)
    (h1 : gens.Perm mid) (h2 : List.Forall₂ GenPerm mid gens') :
    generateHash gens = generateHash gens' := by
  rw [generateHash, generateHash]
  congr 1
  refine List.eq_of_perm_of_sorted ?_ (List.sorted_insertionSort _ _)
    (List.sorted_insertionSort _ _)
  exact ((List.perm_insertionSort _ _).trans (manifest_perm gens mid gens' h1 h2)).trans
    (List.perm_insertionSort _ _).symm

/-! ## Lemmas: services-phase staging -/

theorem servicesLoop_ok_shape (v : Vault) (g : Generator) :
    ∀ (fs : List VarFile) (de : Bool) (entries : List TarEntry),
      servicesLoop v g fs de = Except.ok entries →
      entries =
        (if de || (fs.filter (fun f => f.deploy && f.secret)).isEmpty then []
         else [mkDirEntry g]) ++
        (fs.filter (fun f => f.deploy && f.secret)).map
          (fun f => mkServiceFileEntry g f (contentAt v g f)) := by
  intro fs
  induction fs with
  | nil =>
      intro de entries h
      simp only [servicesLoop, Except.ok.injEq] at h
      subst h
      simp
  | cons f rest ih =>
      intro de entries h
      simp only [servicesLoop] at h
      by_cases hd : f.deploy = false
      · rw [if_pos hd] at h
        have := ih de entries h
        simpa [List.filter_cons, Bool.and_eq_true, hd] using this
      · rw [if_neg hd] at h
        have hd' : f.deploy = true := by revert hd; cases f.deploy <;> simp
        by_cases hs : f.secret = false
        · rw [if_pos hs] at h
          have := ih de entries h
          simp only [List.filter_cons]
          have hsel : (f.deploy && f.secret) = false := by simp [hs]
          simpa [hsel] using this
        · rw [if_neg hs] at h
          have hs' : f.secret = true := by revert hs; cases f.secret <;> simp
          cases hget : getVar v g f.name with
          | error e => rw [hget] at h; simp at h
          | ok content =>
              rw [hget] at h
              cases hrest : servicesLoop v g rest true with
              | error e => rw [hrest] at h; simp at h
              | ok tail =>
                  rw [hrest] at h
                  have htail := ih true tail hrest
                  simp only [Bool.true_or, if_true, List.nil_append] at htail
                  have hsel : (f.deploy && f.secret) = true := by simp [hd', hs']
                  have hcontent : contentAt v g f = content := by
                    simp [contentAt, hget]
                  cases de with
                  | true =>
                      simp only [if_true, Except.ok.injEq] at h
                      subst h
                      simp [List.filter_cons, hsel, htail, hcontent]
                  | false =>
                      simp only [Bool.false_eq_true, if_false, Except.ok.injEq] at h
                      subst h
                      simp [List.filter_cons, hsel, htail, hcontent]

theorem servicesTar_ok_shape (v : Vault) :
    ∀ (gens : List Generator) (entries : List TarEntry),
      servicesTar v gens = Except.ok entries →
      entries = gens.flatMap (fun g =>
        (if (g.files.filter (fun f => f.deploy && f.secret)).isEmpty then []
         else [mkDirEntry g]) ++
        (g.files.filter (fun f => f.deploy && f.secret)).map
          (fun f => mkServiceFileEntry g f (contentAt v g f))) := by
  intro gens
  induction gens with
  | nil =>
      intro entries h
      simp only [servicesTar, Except.ok.injEq] at h
      subst h
      simp
  | cons g rest ih =>
      intro entries h
      simp only [servicesTar] at h
      cases hloop : servicesLoop v g g.files false with
      | error e => rw [hloop] at h; simp at h
      | ok es =>
          rw [hloop] at h
          cases hrest : servicesTar v rest with
          | error e => rw [hrest] at h; simp at h
          | ok tail =>
              rw [hrest] at h
              simp only [Except.ok.injEq] at h
              subst h
              have hes := servicesLoop_ok_shape v g g.files false es hloop
              simp only [Bool.false_or] at hes
              rw [List.flatMap_cons, hes, ih tail hrest]

/-! ## Lemmas: `delete_store` -/

/-- With pairwise-distinct folder ids, the CLI's find-by-id returns exactly
the member folder carrying that id. -/
theorem find?_id_unique (folders : List BwFolder) (hnd : (folders.map (·.id)).Nodup)
    (f : BwFolder) (hf : f ∈ folders) :
    folders.find? (fun x => x.id == f.id) = some f := by
  induction folders with
  | nil => simp at hf
  | cons x rest ih =>
      rw [List.map_cons, List.nodup_cons] at hnd
      obtain ⟨hx, hrest⟩ := hnd
      rcases List.mem_cons.mp hf with rfl | hfr
      · exact List.find?_cons_of_pos _ (by simp)
      · have hxid : x.id ≠ f.id := by
          intro hcontra
          exact hx (hcontra ▸ List.mem_map.mpr ⟨f, hfr, rfl⟩)
        rw [List.find?_cons_of_neg _ (by simp [hxid])]
        exact ih hrest hfr

/-- An item's folder id is collected by `delete_store` iff the item's folder
path starts with the machine's per-machine prefix. -/
theorem mem_deleteIds_iff (v : Vault) (machine : Str)
    (hnd : (v.folders.map (·.id)).Nodup) (it : BwItem) (fid : Nat)
    (hfid : it.folderId = some fid) :
    ((v.folders.filter (fun f => (perMachineRoot machine).isPrefixOf f.name)).map
        (·.id)).contains fid = true ↔
      ∃ p, itemFolderName v it = some p ∧ (perMachineRoot machine).isPrefixOf p = true := by
  constructor
  · intro h
    have hmem : fid ∈ (v.folders.filter
        (fun f => (perMachineRoot machine).isPrefixOf f.name)).map (·.id) := by
      simpa using h
    obtain ⟨f, hfilter, hfid'⟩ := List.mem_map.mp hmem
    obtain ⟨hfmem, hpfx⟩ := List.mem_filter.mp hfilter
    refine ⟨f.name, ?_, hpfx⟩
    simp only [itemFolderName, hfid, Option.some_bind]
    rw [← hfid', find?_id_unique v.folders hnd f hfmem]
    rfl
  · rintro ⟨p, hp, hpfx⟩
    simp only [itemFolderName, hfid, Option.some_bind] at hp
    cases hfind : v.folders.find? (fun f => f.id == fid) with
    | none => rw [hfind] at hp; simp at hp
    | some f0 =>
        rw [hfind] at hp
        have hpname : f0.name = p := by simpa using hp
        have hf0mem : f0 ∈ v.folders := List.mem_of_find?_eq_some hfind
        have hf0id : f0.id = fid := by simpa using List.find?_some hfind
        have hin : f0 ∈ v.folders.filter
            (fun f => (perMachineRoot machine).isPrefixOf f.name) :=
          List.mem_filter.mpr ⟨hf0mem, by rw [hpname]; exact hpfx⟩
        have : fid ∈ (v.folders.filter
            (fun f => (perMachineRoot machine).isPrefixOf f.name)).map (·.id) :=
          List.mem_map.mpr ⟨f0, hin, hf0id⟩
        simpa using this

/-- Survival characterization for `delete_store`: an item survives iff its
folder path does not start with the machine's per-machine prefix. -/
theorem deleteStore_mem_iff (v : Vault) (machine : Str)
    (hnd : (v.folders.map (·.id)).Nodup) (it : BwItem) (hit : it ∈ v.items) :
    it ∈ (deleteStore v machine).items ↔
      ¬ ∃ p, itemFolderName v it = some p ∧ (perMachineRoot machine).isPrefixOf p = true := by
  simp only [deleteStore]
  rw [List.mem_filter]
  cases hfid : it.folderId with
  | none => simp [hit, hfid, itemFolderName]
  | some fid =>
      have hch := mem_deleteIds_iff v machine hnd it fid hfid
      constructor
      · rintro ⟨-, hpred⟩ hex
        simp only [hfid, Bool.not_eq_true'] at hpred
        have hcontains := hch.mpr hex
        rw [hpred] at hcontains
        simp at hcontains
      · intro hnex
        refine ⟨hit, ?_⟩
        simp only [hfid, Bool.not_eq_true']
        cases hc : ((v.folders.filter (fun f => (perMachineRoot machine).isPrefixOf f.name)).map
            (·.id)).contains fid with
        | false => rfl
        | true => exact absurd (hch.mp hc) hnex

/-- The shared subtree and any per-machine subtree are disjoint: no path
starts with both prefixes. -/
theorem shared_perMachine_disjoint (machine p : Str)
    (h1 : (entryRoot ++ sharedSeg).isPrefixOf p = true)
    (h2 : (perMachineRoot machine).isPrefixOf p = true) : False := by
  obtain ⟨t1, ht1⟩ := List.isPrefixOf_iff_prefix.mp h1
  obtain ⟨t2, ht2⟩ := List.isPrefixOf_iff_prefix.mp h2
  have h := ht1.trans ht2.symm
  simp only [perMachineRoot, entryRoot, sharedSeg, perMachineSeg, List.append_assoc,
    List.cons_append, List.nil_append, List.cons.injEq] at h
  exact absurd h.2.2.2.2.2.2.2.2.2.2.1 (by decide)

/-- Two slash-free segments followed by `/` at the same position of a path
must be equal: machine path components do not alias. -/
theorem eq_of_append_slash (m : Str) : ∀ (m' t t' : Str), '/' ∉ m → '/' ∉ m' →
    m ++ '/' :: t = m' ++ '/' :: t' → m = m' := by
  induction m with
  | nil =>
      intro m' t t' _ hm' h
      cases m' with
      | nil => rfl
      | cons c cs =>
          simp only [List.nil_append, List.cons_append, List.cons.injEq] at h
          have hmem : '/' ∈ c :: cs := by rw [h.1]; exact List.mem_cons_self _ _
          exact absurd hmem hm'
  | cons c cs ih =>
      intro m' t t' hm hm' h
      cases m' with
      | nil =>
          simp only [List.cons_append, List.nil_append, List.cons.injEq] at h
          have hmem : '/' ∈ c :: cs := by rw [← h.1]; exact List.mem_cons_self _ _
          exact absurd hmem hm
      | cons c' cs' =>
          simp only [List.cons_append, List.cons.injEq] at h
          obtain ⟨rfl, h2⟩ := h
          have := ih cs' t t' (fun hmem => hm (List.mem_cons_of_mem _ hmem))
            (fun hmem => hm' (List.mem_cons_of_mem _ hmem)) h2
          rw [this]

/-- Distinct slash-free machine identifiers have disjoint per-machine
prefixes. -/
theorem perMachineRoot_inj (m m' p : Str) (hm : '/' ∉ m) (hm' : '/' ∉ m')
    (h : (perMachineRoot m).isPrefixOf p = true)
    (h' : (perMachineRoot m').isPrefixOf p = true) : m = m' := by
  obtain ⟨t, ht⟩ := List.isPrefixOf_iff_prefix.mp h
  obtain ⟨t', ht'⟩ := List.isPrefixOf_iff_prefix.mp h'
  have hcomb : entryRoot ++ perMachineSeg ++ (m ++ '/' :: t) =
      entryRoot ++ perMachineSeg ++ (m' ++ '/' :: t') := by
    have := ht.trans ht'.symm
    simpa [perMachineRoot, List.append_assoc] using this
  exact eq_of_append_slash m m' t t' hm hm' (List.append_cancel_left hcomb)

/-! ## Lemmas: folder-path containment -/

/-- A substring ending in `/` that occurs in `s ++ name` with `name`
slash-free must occur entirely inside `s`. -/
theorem infix_slash_left (mid s : Str) : ∀ name : Str, '/' ∉ name →
    (mid ++ ['/']) <:+: (s ++ name) → (mid ++ ['/']) <:+: s := by
  intro name
  induction name using List.reverseRecOn with
  | nil => intro _ h; simpa using h
  | append_singleton ys c ih =>
      intro hname h
      have hys : '/' ∉ ys := fun hmem => hname (List.mem_append_left _ hmem)
      have hc : c ≠ '/' := by
        intro hcontra
        exact hname (List.mem_append_right _ (hcontra ▸ List.mem_cons_self _ _))
      obtain ⟨u, t, hut⟩ := h
      rcases t.eq_nil_or_concat with rfl | ⟨ts, d, rfl⟩
      · exfalso
        have hre : (u ++ mid) ++ ['/'] = (s ++ ys) ++ [c] := by
          simpa [List.append_assoc] using hut
        have := (List.append_inj' hre rfl).2
        simp only [List.cons.injEq] at this
        exact hc this.1.symm
      · have hre : ((u ++ (mid ++ ['/'])) ++ ts) ++ [d] = (s ++ ys) ++ [c] := by
          simpa [List.concat_eq_append, List.append_assoc] using hut
        have hsplit := (List.append_inj' hre rfl).1
        exact ih hys ⟨u, ts, by simpa [List.append_assoc] using hsplit⟩

/-! ## Claims -/

/-- C1, counterexample: the claim says `get`'s decode step never raises and
falls back to raw UTF-8 on any decode failure. On a stored entry carrying
the `encoding=base64` marker whose notes text `"a"` is not valid base64,
`get` raises (`base64.b64decode` raises `binascii.Error`) instead of
returning the UTF-8 bytes of `"a"`. -/
theorem get_marked_malformed_raises :
    getVar
      ⟨[⟨1, ['c', 'l', 'a', 'n', '-', 'v', 'a', 'r', 's', '/',
             's', 'h', 'a', 'r', 'e', 'd', '/', 'g']⟩],
       [⟨2, 2, ['v'], some 1, ['a'], b64Fields⟩], 3⟩
      ⟨['g'], true, ['m'], []⟩ ['v'] = Except.error GetErr.decodeFailed := by rfl

/-- C1, amended: `get` attempts base64 decoding only when the item carries
the `encoding=base64` marker field; an unmarked item's notes are returned
as raw UTF-8 bytes (that path never raises), and the decode step raises
exactly when the marker is present and the notes are not valid base64. -/
theorem get_decode_amended (v : Vault) (g : Generator) (name : Str) (item : BwItem)
    (h : getItem v g name = some item) :
    (isBase64Marked item.fields = false →
      getVar v g name = Except.ok (utf8Encode item.notes)) ∧
    ((∃ e, getVar v g name = Except.error e) ↔
      (isBase64Marked item.fields = true ∧ b64decode item.notes = none)) := by
  constructor
  · intro hm
    simp [getVar, h, hm]
  · constructor
    · rintro ⟨e, he⟩
      simp only [getVar, h] at he
      by_cases hm : isBase64Marked item.fields
      · refine ⟨hm, ?_⟩
        rw [if_pos hm] at he
        cases hd : b64decode item.notes with
        | some bs => rw [hd] at he; simp at he
        | none => rfl
      · rw [if_neg hm] at he
        simp at he
    · rintro ⟨hm, hd⟩
      exact ⟨GetErr.decodeFailed, by simp [getVar, h, hm, hd]⟩

/-- C1, witness for the amended theorem: a manually created entry (no marker
field) holding the plain text `"a"` reads back as its raw UTF-8 bytes. -/
theorem get_decode_amended_witness :
    getVar
      ⟨[⟨1, ['c', 'l', 'a', 'n', '-', 'v', 'a', 'r', 's', '/',
             's', 'h', 'a', 'r', 'e', 'd', '/', 'g']⟩],
       [⟨2, 2, ['v'], some 1, ['a'], []⟩], 3⟩
      ⟨['g'], true, ['m'], []⟩ ['v'] = Except.ok (utf8Encode ['a']) :=
  (get_decode_amended
    ⟨[⟨1, ['c', 'l', 'a', 'n', '-', 'v', 'a', 'r', 's', '/',
           's', 'h', 'a', 'r', 'e', 'd', '/', 'g']⟩],
     [⟨2, 2, ['v'], some 1, ['a'], []⟩], 3⟩
    ⟨['g'], true, ['m'], []⟩ ['v'] ⟨2, 2, ['v'], some 1, ['a'], []⟩
    (by decide)).1 (by decide)

/-- C2, counterexample: the claim says `needs_upload` is false iff the local
manifest equals the remote marker bytes exactly, byte-for-byte. With one
secret file `a/b` and a remote marker whose bytes are `"a/b\n"` (trailing
newline), the bytes differ yet `needs_upload` returns false, because the
source strips the remote output before comparing. -/
theorem needsUpload_not_byte_exact :
    needsUpload [⟨['a'], false, ['m'], [⟨['b'], true, true, 256, [], [], [], []⟩]⟩]
        ['a', '/', 'b', '\n'] = false ∧
    generateHash [⟨['a'], false, ['m'], [⟨['b'], true, true, 256, [], [], [], []⟩]⟩] ≠
      utf8Encode ['a', '/', 'b', '\n'] := by decide

/-- C2, amended: `needs_upload` is true when the local manifest is empty,
true when the stripped remote marker text is empty (missing or unreadable
marker included, as a failed `cat` yields no stdout), and otherwise false
iff the local manifest bytes equal the UTF-8 bytes of the
whitespace-stripped remote marker text. -/
theorem needsUpload_amended (gens : List Generator) (remoteOut : Str) :
    (generateHash gens = [] → needsUpload gens remoteOut = true) ∧
    (pstrip remoteOut = [] → needsUpload gens remoteOut = true) ∧
    (generateHash gens ≠ [] → pstrip remoteOut ≠ [] →
      (needsUpload gens remoteOut = false ↔
        generateHash gens = utf8Encode (pstrip remoteOut))) := by
  refine ⟨?_, ?_, ?_⟩
  · intro h
    simp [needsUpload, h]
  · intro h
    by_cases hl : generateHash gens = []
    · simp [needsUpload, hl]
    · simp [needsUpload, hl, h]
  · intro hl hr
    simp only [needsUpload]
    rw [if_neg hl, if_neg hr]
    simp [bne]

/-- C2, witness for the amended theorem: with local manifest `a/b` and
remote marker text `"a/b\n"`, stripping makes the comparison succeed, so no
upload is needed. -/
theorem needsUpload_amended_witness :
    needsUpload [⟨['a'], false, ['m'], [⟨['b'], true, true, 256, [], [], [], []⟩]⟩]
      ['a', '/', 'b', '\n'] = false :=
  ((needsUpload_amended
      [⟨['a'], false, ['m'], [⟨['b'], true, true, 256, [], [], [], []⟩]⟩]
      ['a', '/', 'b', '\n']).2.2 (by decide) (by decide)).mpr (by decide)

/-- C3: `_set` followed by `get` at the same address returns exactly the
stored byte string — the new item (fresh or overwriting) carries the
base64 marker and base64 notes, and decoding inverts encoding. Requires
only that existing folder references are below the vault's fresh-id
counter (`FolderIdsBound`, maintained by the CLI). -/
theorem set_then_get_claim (v : Vault) (g : Generator) (var : Var) (value : Bytes)
    (machine : Str) (hB : FolderIdsBound v) (hval : ∀ x ∈ value, x < 256) :
    getVar (setVar v g var value machine) g var.name = Except.ok value :=
  setVar_getVar_roundtrip v g var value machine hB hval

/-- C3, witness: the spec's non-UTF-8 example bytes round-trip both through
an empty vault (fresh entry) and through a vault already holding an entry
at that address (overwrite). -/
theorem set_then_get_claim_witness :
    getVar (setVar ⟨[], [], 0⟩ ⟨['g'], true, ['m'], []⟩ ⟨['v']⟩
        [0, 1, 2, 255, 254, 253] ['m']) ⟨['g'], true, ['m'], []⟩ ['v'] =
      Except.ok [0, 1, 2, 255, 254, 253] ∧
    getVar (setVar
        ⟨[⟨0, ['c', 'l', 'a', 'n', '-', 'v', 'a', 'r', 's', '/',
               's', 'h', 'a', 'r', 'e', 'd', '/', 'g']⟩],
         [⟨1, 2, ['v'], some 0, ['x'], []⟩], 2⟩
        ⟨['g'], true, ['m'], []⟩ ⟨['v']⟩
        [0, 1, 2, 255, 254, 253] ['m']) ⟨['g'], true, ['m'], []⟩ ['v'] =
      Except.ok [0, 1, 2, 255, 254, 253] :=
  ⟨set_then_get_claim ⟨[], [], 0⟩ ⟨['g'], true, ['m'], []⟩ ⟨['v']⟩
      [0, 1, 2, 255, 254, 253] ['m']
      (by intro it hit; simp at hit) (by decide),
   set_then_get_claim
      ⟨[⟨0, ['c', 'l', 'a', 'n', '-', 'v', 'a', 'r', 's', '/',
             's', 'h', 'a', 'r', 'e', 'd', '/', 'g']⟩],
       [⟨1, 2, ['v'], some 0, ['x'], []⟩], 2⟩
      ⟨['g'], true, ['m'], []⟩ ⟨['v']⟩
      [0, 1, 2, 255, 254, 253] ['m']
      (by
        intro it hit fid hfid
        simp at hit
        subst hit
        simp at hfid
        show fid < 2
        omega)
      (by decide)⟩

/-- C6: `upload` with the partitioning phase requested fails with the
unsupported-phase error unconditionally — whatever the vault state, the
generators, or the remote marker — before any staging or transport. -/
theorem upload_partitioning_claim (v : Vault) (gens : List Generator)
    (remoteOut : Str) (phases : List Str) (h : phasePartitioning ∈ phases) :
    uploadRun v gens remoteOut phases = Except.error UploadErr.unsupportedPhase := by
  simp [uploadRun, h]

/-- C6, witness: uploading `["partitioning"]` against an empty vault fails
with the unsupported-phase error. -/
theorem upload_partitioning_claim_witness :
    uploadRun ⟨[], [], 0⟩ [] [] [phasePartitioning] =
      Except.error UploadErr.unsupportedPhase :=
  upload_partitioning_claim ⟨[], [], 0⟩ [] [] [phasePartitioning]
    (List.mem_singleton.mpr rfl)

/-- C8: deleting a var whose entry does not exist returns without error and
leaves the vault (and the returned path list) unchanged — `delete` is
idempotent on missing entries. -/
theorem delete_missing_claim (v : Vault) (g : Generator) (name : Str)
    (h : getItem v g name = none) :
    deleteVar v g name = (v, []) := by
  simp [deleteVar, h]

/-- C8, witness: deleting from an empty vault is a no-op. -/
theorem delete_missing_claim_witness :
    deleteVar ⟨[], [], 0⟩ ⟨['g'], true, ['m'], []⟩ ['x'] = (⟨[], [], 0⟩, []) :=
  delete_missing_claim ⟨[], [], 0⟩ ⟨['g'], true, ['m'], []⟩ ['x'] (by decide)

/-- C10: `get` base64-decodes the notes iff the item carries a custom field
`encoding=base64`; an item without that marker has its notes returned as
raw UTF-8 bytes even when the notes text is itself syntactically valid
base64. -/
theorem get_marker_claim (v : Vault) (g : Generator) (name : Str) (item : BwItem)
    (h : getItem v g name = some item) :
    (isBase64Marked item.fields = true →
      getVar v g name = (match b64decode item.notes with
        | some bs => Except.ok bs
        | none => Except.error GetErr.decodeFailed)) ∧
    (isBase64Marked item.fields = false →
      getVar v g name = Except.ok (utf8Encode item.notes)) := by
  constructor
  · intro hm
    simp only [getVar, h, hm, if_true]
  · intro hm
    simp [getVar, h, hm]

/-- C10, witness: an unmarked item whose notes `"aGVsbG8="` are valid
base64 still reads back as the raw UTF-8 bytes of that text, not as the
decoded `"hello"`. -/
theorem get_marker_claim_witness :
    getVar
      ⟨[⟨1, ['c', 'l', 'a', 'n', '-', 'v', 'a', 'r', 's', '/',
             's', 'h', 'a', 'r', 'e', 'd', '/', 'g']⟩],
       [⟨2, 2, ['v'], some 1, ['a', 'G', 'V', 's', 'b', 'G', '8', '='], []⟩], 3⟩
      ⟨['g'], true, ['m'], []⟩ ['v'] =
      Except.ok (utf8Encode ['a', 'G', 'V', 's', 'b', 'G', '8', '=']) :=
  (get_marker_claim
    ⟨[⟨1, ['c', 'l', 'a', 'n', '-', 'v', 'a', 'r', 's', '/',
           's', 'h', 'a', 'r', 'e', 'd', '/', 'g']⟩],
     [⟨2, 2, ['v'], some 1, ['a', 'G', 'V', 's', 'b', 'G', '8', '='], []⟩], 3⟩
    ⟨['g'], true, ['m'], []⟩ ['v']
    ⟨2, 2, ['v'], some 1, ['a', 'G', 'V', 's', 'b', 'G', '8', '='], []⟩
    (by decide)).2 (by decide)

/-- C4: `generate_hash` is the newline-join of the lexicographically sorted
`<generator>/<file>` manifest over the machine's secret files; it is empty
when there are no secret files; and permuting the generator/file
enumeration order (a permutation of the generator list together with a
permutation of each generator's file list) leaves it unchanged. -/
theorem generateHash_claim (gens mid gens' : List Generator)
    (h1 : gens.Perm mid) (h2 : List.Forall₂ GenPerm mid gens') :
    (∃ l, generateHash gens = List.intercalate [10] l ∧
      l.Perm (manifest gens) ∧ List.Sorted (· ≤ ·) l) ∧
    ((∀ g ∈ gens, ∀ f ∈ g.files, f.secret = false) → generateHash gens = []) ∧
    generateHash gens = generateHash gens' :=
  ⟨generateHash_sorted_join gens, generateHash_eq_nil gens,
    generateHash_perm_invariant gens mid gens' h1 h2⟩

/-- C4, witness: swapping the two generators and reordering one generator's
files yields the identical hash bytes. -/
theorem generateHash_claim_witness :
    generateHash
      [⟨['a'], false, ['m'], [⟨['x'], true, true, 256, [], [], [], []⟩]⟩,
       ⟨['b'], false, ['m'], [⟨['y'], true, true, 256, [], [], [], []⟩,
                              ⟨['z'], false, true, 256, [], [], [], []⟩]⟩] =
    generateHash
      [⟨['b'], false, ['m'], [⟨['z'], false, true, 256, [], [], [], []⟩,
                              ⟨['y'], true, true, 256, [], [], [], []⟩]⟩,
       ⟨['a'], false, ['m'], [⟨['x'], true, true, 256, [], [], [], []⟩]⟩] :=
  (generateHash_claim
    [⟨['a'], false, ['m'], [⟨['x'], true, true, 256, [], [], [], []⟩]⟩,
     ⟨['b'], false, ['m'], [⟨['y'], true, true, 256, [], [], [], []⟩,
                            ⟨['z'], false, true, 256, [], [], [], []⟩]⟩]
    [⟨['b'], false, ['m'], [⟨['y'], true, true, 256, [], [], [], []⟩,
                            ⟨['z'], false, true, 256, [], [], [], []⟩]⟩,
     ⟨['a'], false, ['m'], [⟨['x'], true, true, 256, [], [], [], []⟩]⟩]
    [⟨['b'], false, ['m'], [⟨['z'], false, true, 256, [], [], [], []⟩,
                            ⟨['y'], true, true, 256, [], [], [], []⟩]⟩,
     ⟨['a'], false, ['m'], [⟨['x'], true, true, 256, [], [], [], []⟩]⟩]
    (List.Perm.swap
      (⟨['b'], false, ['m'], [⟨['y'], true, true, 256, [], [], [], []⟩,
                              ⟨['z'], false, true, 256, [], [], [], []⟩]⟩ : Generator)
      (⟨['a'], false, ['m'], [⟨['x'], true, true, 256, [], [], [], []⟩]⟩ : Generator) [])
    (List.Forall₂.cons
      ⟨rfl, List.Perm.swap (⟨['z'], false, true, 256, [], [], [], []⟩ : VarFile)
        (⟨['y'], true, true, 256, [], [], [], []⟩ : VarFile) []⟩
      (List.Forall₂.cons ⟨rfl, List.Perm.refl _⟩ List.Forall₂.nil))).2.2

/-- C5: a successful services-phase archive is, generator by generator, an
explicit directory entry (mode `0o511`, only present when the generator has
at least one deployed secret file) followed by exactly the generator's
`deploy && secret` files; and every file entry carries the owner and group
names from the file's metadata. -/
theorem servicesTar_claim (v : Vault) (gens : List Generator) (entries : List TarEntry)
    (h : servicesTar v gens = Except.ok entries) :
    entries = gens.flatMap (fun g =>
      (if (g.files.filter (fun f => f.deploy && f.secret)).isEmpty then []
       else [mkDirEntry g]) ++
      (g.files.filter (fun f => f.deploy && f.secret)).map
        (fun f => mkServiceFileEntry g f (contentAt v g f))) ∧
    (∀ e ∈ entries, e.isDir = true → e.mode = 0o511) ∧
    (∀ e ∈ entries, e.isDir = false → ∃ g ∈ gens, ∃ f ∈ g.files,
      f.deploy = true ∧ f.secret = true ∧ e.ename = g.name ++ ['/'] ++ f.name ∧
      e.mode = f.mode ∧ e.uname = f.owner ∧ e.gname = f.group) := by
  have hshape := servicesTar_ok_shape v gens entries h
  subst hshape
  refine ⟨rfl, ?_, ?_⟩
  · intro e he hdir
    rw [List.mem_flatMap] at he
    obtain ⟨g, hg, he⟩ := he
    rw [List.mem_append] at he
    rcases he with he | he
    · by_cases hemp : (g.files.filter (fun f => f.deploy && f.secret)).isEmpty
      · simp [hemp] at he
      · simp [hemp] at he
        subst he
        rfl
    · obtain ⟨f, -, rfl⟩ := List.mem_map.mp he
      simp [mkServiceFileEntry] at hdir
  · intro e he hfile
    rw [List.mem_flatMap] at he
    obtain ⟨g, hg, he⟩ := he
    rw [List.mem_append] at he
    rcases he with he | he
    · by_cases hemp : (g.files.filter (fun f => f.deploy && f.secret)).isEmpty
      · simp [hemp] at he
      · simp [hemp] at he
        subst he
        simp [mkDirEntry] at hfile
    · obtain ⟨f, hfmem, rfl⟩ := List.mem_map.mp he
      obtain ⟨hfin, hsel⟩ := List.mem_filter.mp hfmem
      rw [Bool.and_eq_true] at hsel
      exact ⟨g, hg, f, hfin, hsel.1, hsel.2, rfl, rfl, rfl, rfl⟩

/-- C5, witness: one shared generator with a single deployed secret file
(owner `o`, group `r`) stages as its directory entry followed by the one
file entry. -/
theorem servicesTar_claim_witness :
    [mkDirEntry ⟨['g'], true, ['m'], [⟨['v'], true, true, 256, ['o'], ['r'], [], []⟩]⟩,
     mkServiceFileEntry ⟨['g'], true, ['m'], [⟨['v'], true, true, 256, ['o'], ['r'], [], []⟩]⟩
       ⟨['v'], true, true, 256, ['o'], ['r'], [], []⟩
       (contentAt
         ⟨[⟨1, ['c', 'l', 'a', 'n', '-', 'v', 'a', 'r', 's', '/',
                's', 'h', 'a', 'r', 'e', 'd', '/', 'g']⟩],
          [⟨2, 2, ['v'], some 1, ['a', 'G', 'k', '='], b64Fields⟩], 3⟩
         ⟨['g'], true, ['m'], [⟨['v'], true, true, 256, ['o'], ['r'], [], []⟩]⟩
         ⟨['v'], true, true, 256, ['o'], ['r'], [], []⟩)] =
    [⟨['g'], true, ['m'], [⟨['v'], true, true, 256, ['o'], ['r'], [], []⟩]⟩].flatMap
      (fun g =>
        (if (g.files.filter (fun f => f.deploy && f.secret)).isEmpty then []
         else [mkDirEntry g]) ++
        (g.files.filter (fun f => f.deploy && f.secret)).map
          (fun f => mkServiceFileEntry g f (contentAt
            ⟨[⟨1, ['c', 'l', 'a', 'n', '-', 'v', 'a', 'r', 's', '/',
                   's', 'h', 'a', 'r', 'e', 'd', '/', 'g']⟩],
             [⟨2, 2, ['v'], some 1, ['a', 'G', 'k', '='], b64Fields⟩], 3⟩ g f))) :=
  (servicesTar_claim
    ⟨[⟨1, ['c', 'l', 'a', 'n', '-', 'v', 'a', 'r', 's', '/',
           's', 'h', 'a', 'r', 'e', 'd', '/', 'g']⟩],
     [⟨2, 2, ['v'], some 1, ['a', 'G', 'k', '='], b64Fields⟩], 3⟩
    [⟨['g'], true, ['m'], [⟨['v'], true, true, 256, ['o'], ['r'], [], []⟩]⟩]
    [mkDirEntry ⟨['g'], true, ['m'], [⟨['v'], true, true, 256, ['o'], ['r'], [], []⟩]⟩,
     mkServiceFileEntry ⟨['g'], true, ['m'], [⟨['v'], true, true, 256, ['o'], ['r'], [], []⟩]⟩
       ⟨['v'], true, true, 256, ['o'], ['r'], [], []⟩
       (contentAt
         ⟨[⟨1, ['c', 'l', 'a', 'n', '-', 'v', 'a', 'r', 's', '/',
                's', 'h', 'a', 'r', 'e', 'd', '/', 'g']⟩],
          [⟨2, 2, ['v'], some 1, ['a', 'G', 'k', '='], b64Fields⟩], 3⟩
         ⟨['g'], true, ['m'], [⟨['v'], true, true, 256, ['o'], ['r'], [], []⟩]⟩
         ⟨['v'], true, true, 256, ['o'], ['r'], [], []⟩)]
    (by rfl)).1

/-- C7: `delete_store(machine)` removes no item it did not have, and an item
survives iff its folder path does not start with the machine's per-machine
prefix; items under the shared prefix always survive, and items under a
different machine's per-machine prefix survive whenever the two machine
identifiers are distinct single path components (no `/`). Folder ids are
assumed pairwise distinct (the CLI never hands out an id twice). -/
theorem deleteStore_claim (v : Vault) (machine : Str)
    (hnd : (v.folders.map (·.id)).Nodup) (hm : '/' ∉ machine) :
    ((deleteStore v machine).items.Sublist v.items) ∧
    (∀ it ∈ v.items, (it ∈ (deleteStore v machine).items ↔
      ¬ ∃ p, itemFolderName v it = some p ∧ (perMachineRoot machine).isPrefixOf p = true)) ∧
    (∀ it ∈ v.items, ∀ p, itemFolderName v it = some p →
      (entryRoot ++ sharedSeg).isPrefixOf p = true →
      it ∈ (deleteStore v machine).items) ∧
    (∀ m', m' ≠ machine → '/' ∉ m' → ∀ it ∈ v.items, ∀ p, itemFolderName v it = some p →
      (perMachineRoot m').isPrefixOf p = true → it ∈ (deleteStore v machine).items) := by
  refine ⟨List.filter_sublist _, fun it hit => deleteStore_mem_iff v machine hnd it hit,
    ?_, ?_⟩
  · intro it hit p hp hpfx
    rw [deleteStore_mem_iff v machine hnd it hit]
    rintro ⟨p', hp', hpfx'⟩
    rw [hp] at hp'
    injection hp' with hpp
    subst hpp
    exact shared_perMachine_disjoint machine p hpfx hpfx'
  · intro m' hne hm' it hit p hp hpfx
    rw [deleteStore_mem_iff v machine hnd it hit]
    rintro ⟨p', hp', hpfx'⟩
    rw [hp] at hp'
    injection hp' with hpp
    subst hpp
    exact hne (perMachineRoot_inj m' machine p hm' hm hpfx hpfx')

/-- C7, witness: deleting machine `m1`'s store leaves machine `m2`'s item in
place. -/
theorem deleteStore_claim_witness :
    (⟨5, 2, ['v'], some 2, [], []⟩ : BwItem) ∈
      (deleteStore
        ⟨[⟨1, ['c', 'l', 'a', 'n', '-', 'v', 'a', 'r', 's', '/', 'p', 'e', 'r', '-',
               'm', 'a', 'c', 'h', 'i', 'n', 'e', '/', 'm', '1', '/', 'g']⟩,
          ⟨2, ['c', 'l', 'a', 'n', '-', 'v', 'a', 'r', 's', '/', 'p', 'e', 'r', '-',
               'm', 'a', 'c', 'h', 'i', 'n', 'e', '/', 'm', '2', '/', 'g']⟩,
          ⟨3, ['c', 'l', 'a', 'n', '-', 'v', 'a', 'r', 's', '/',
               's', 'h', 'a', 'r', 'e', 'd', '/', 's']⟩],
         [⟨4, 2, ['v'], some 1, [], []⟩, ⟨5, 2, ['v'], some 2, [], []⟩,
          ⟨6, 2, ['v'], some 3, [], []⟩], 7⟩
        ['m', '1']).items :=
  (deleteStore_claim
    ⟨[⟨1, ['c', 'l', 'a', 'n', '-', 'v', 'a', 'r', 's', '/', 'p', 'e', 'r', '-',
           'm', 'a', 'c', 'h', 'i', 'n', 'e', '/', 'm', '1', '/', 'g']⟩,
      ⟨2, ['c', 'l', 'a', 'n', '-', 'v', 'a', 'r', 's', '/', 'p', 'e', 'r', '-',
           'm', 'a', 'c', 'h', 'i', 'n', 'e', '/', 'm', '2', '/', 'g']⟩,
      ⟨3, ['c', 'l', 'a', 'n', '-', 'v', 'a', 'r', 's', '/',
           's', 'h', 'a', 'r', 'e', 'd', '/', 's']⟩],
     [⟨4, 2, ['v'], some 1, [], []⟩, ⟨5, 2, ['v'], some 2, [], []⟩,
      ⟨6, 2, ['v'], some 3, [], []⟩], 7⟩
    ['m', '1'] (by decide) (by decide)).2.2.2
    ['m', '2'] (by decide) (by decide)
    ⟨5, 2, ['v'], some 2, [], []⟩ (by decide)
    ['c', 'l', 'a', 'n', '-', 'v', 'a', 'r', 's', '/', 'p', 'e', 'r', '-',
     'm', 'a', 'c', 'h', 'i', 'n', 'e', '/', 'm', '2', '/', 'g'] (by decide) (by decide)

/-- C9: for a shared generator (a single path component, no `/`), the folder
path contains `shared/` and never `per-machine/`; for a non-shared one it
contains `per-machine/<machine>/`; and the path depends only on the
generator's name, scope and machine (deterministic, no hidden inputs). -/
theorem folderPath_claim (g : Generator) (hn : '/' ∉ g.name) :
    (g.share = true →
      (['s', 'h', 'a', 'r', 'e', 'd', '/'] <:+: folderPath g) ∧
      ¬ (['p', 'e', 'r', '-', 'm', 'a', 'c', 'h', 'i', 'n', 'e', '/'] <:+: folderPath g)) ∧
    (g.share = false →
      (['p', 'e', 'r', '-', 'm', 'a', 'c', 'h', 'i', 'n', 'e', '/'] ++
        g.machine ++ ['/']) <:+: folderPath g) ∧
    (∀ g' : Generator, g.name = g'.name → g.share = g'.share → g.machine = g'.machine →
      folderPath g = folderPath g') := by
  refine ⟨?_, ?_, ?_⟩
  · intro hshare
    constructor
    · exact ⟨entryRoot ++ ['/'], g.name,
        by simp [folderPath, hshare, entryRoot, sharedSeg]⟩
    · intro hinf
      have hresh : (['p', 'e', 'r', '-', 'm', 'a', 'c', 'h', 'i', 'n', 'e'] ++ ['/']) <:+:
          ((entryRoot ++ sharedSeg) ++ g.name) := by
        simpa [folderPath, hshare, List.append_assoc] using hinf
      have hleft := infix_slash_left _ _ g.name hn hresh
      revert hleft
      decide
  · intro hshare
    exact ⟨entryRoot ++ ['/'], g.name,
      by simp [folderPath, hshare, perMachineRoot, entryRoot, perMachineSeg, sharedSeg]⟩
  · intro g' h1 h2 h3
    simp only [folderPath, perMachineRoot, h1, h2, h3]

/-- C9, witness: a shared generator named `g` and its per-machine twin. -/
theorem folderPath_claim_witness :
    (['s', 'h', 'a', 'r', 'e', 'd', '/'] <:+: folderPath ⟨['g'], true, ['m'], []⟩) ∧
    (['p', 'e', 'r', '-', 'm', 'a', 'c', 'h', 'i', 'n', 'e', '/'] ++ ['m'] ++ ['/']) <:+:
      folderPath ⟨['g'], false, ['m'], []⟩ :=
  ⟨((folderPath_claim ⟨['g'], true, ['m'], []⟩ (by decide)).1 rfl).1,
   (folderPath_claim ⟨['g'], false, ['m'], []⟩ (by decide)).2.1 rfl⟩

end ClanVars
